import Mathlib

/-!
Shallow embedding of the TrackRec task service
(`src/server/src/services/taskServices.ts` together with the schema-level
validation declared in `src/server/src/models/taskModel.ts`).

The store is modelled as a list of task records; MongoDB / Mongoose calls
are translated to their documented semantics on that list:
* `Task.find(query).sort(createdAt:-1)` = filter then sort by `createdAt`
  descending;
* `Task.findByIdAndUpdate(id, data, runValidators)` = validate the update
  document, then replace the first record with the matching id; keys whose
  value is `undefined` are stripped from the update document (Mongoose 6+
  always removes `undefined` update values), so such fields stay untouched;
* `Task.countDocuments(q)` = length of the filtered list;
* `$regex` with option `i` is modelled for the fragment the claims use:
  patterns made of literal characters and the `.` wildcard, matched
  case-insensitively anywhere in the text.

JavaScript due-date inputs are modelled by the pair of observations the
service makes of them: their truthiness (`updates.dueDate ? ... :`) and the
result of `new Date(v)` (a valid epoch time, or an invalid date).
-/

deriving instance DecidableEq for Except

namespace TrackRec

/-- One persisted task record, as shaped by the Mongoose schema in
`taskModel.ts`: `isCompleted` and `priority` always present thanks to the
schema defaults, `description`/`dueDate` optional, timestamps as epoch
times (integers). -/
structure Task where
  id : String
  title : String
  description : Option String
  isCompleted : Bool
  priority : String
  dueDate : Option Int
  tags : List String
  createdAt : Int
  updatedAt : Int
deriving DecidableEq, Repr

/-- A JavaScript value supplied for `dueDate`, abstracted to the two
observations the service makes of it: whether it is truthy, and what
`new Date(v)` yields (`some t` = a valid date with epoch time `t`,
`none` = Invalid Date). -/
structure DueValue where
  truthy : Bool
  parsed : Option Int
deriving DecidableEq, Repr

/-- A genuine date value (a `Date` object or parseable string): truthy,
parses to its epoch time. -/
def DueValue.ofTime (t : Int) : DueValue := ⟨true, some t⟩

/-- JSON `null` or the number `0`: falsy, but `new Date(null)` and
`new Date(0)` are the valid epoch date `0`. -/
def DueValue.jsNull : DueValue := ⟨false, some 0⟩

/-- The empty string: falsy, and `new Date("")` is Invalid Date. -/
def DueValue.emptyString : DueValue := ⟨false, none⟩

/-- A non-empty string that does not parse as a date: truthy, but
`new Date(s)` is Invalid Date. -/
def DueValue.unparseableString : DueValue := ⟨true, none⟩

/-- `CreateTaskRequest` from `types/task.ts`: `title` required, the rest
optional. -/
structure CreateTaskRequest where
  title : String
  description : Option String := none
  priority : Option String := none
  dueDate : Option DueValue := none
  tags : Option (List String) := none
deriving DecidableEq, Repr

/-- `UpdateTaskRequest` from `types/task.ts`: every creatable field optional,
plus optional `isCompleted`.  `none` = the key is absent from the patch. -/
structure UpdateTaskRequest where
  title : Option String := none
  description : Option String := none
  priority : Option String := none
  dueDate : Option DueValue := none
  tags : Option (List String) := none
  isCompleted : Option Bool := none
deriving DecidableEq, Repr

/-- The errors the service throws: the `Invalid task ID format` error, the
`Due date must be in the future` error, and Mongoose-level validation/cast
failures. -/
inductive ServiceError where
  | invalidIdFormat
  | dueDateMustBeFuture
  | validationFailed
deriving DecidableEq, Repr

/-- The filter object accepted by `getAllTasks`; `none` = key absent. -/
structure TaskFilters where
  isCompleted : Option Bool := none
  priority : Option String := none
  search : Option String := none
deriving DecidableEq, Repr

/-- The statistics record returned by `getTaskStats`. -/
structure TaskStats where
  total : Nat
  completed : Nat
  pending : Nat
  overdue : Nat
deriving DecidableEq, Repr

/-- ASCII whitespace, for the schema-level `trim: true` setters. -/
def isWSChar (c : Char) : Bool :=
  c == ' ' || c == '\t' || c == '\n' || c == '\r'

/-- The `trim: true` setter of the schema: strip leading and trailing
whitespace. -/
def strTrim (s : String) : String :=
  String.mk (((s.data.dropWhile isWSChar).reverse.dropWhile isWSChar).reverse)

/-- One hexadecimal digit, as in the character class `[0-9a-fA-F]`. -/
def isHexDigit (c : Char) : Bool :=
  (decide ('0' ≤ c) && decide (c ≤ '9')) ||
  (decide ('a' ≤ c) && decide (c ≤ 'f')) ||
  (decide ('A' ≤ c) && decide (c ≤ 'F'))

/-- The id-format gate `id.match(/^[0-9a-fA-F]{24}$/)`: exactly 24
hexadecimal characters. -/
def isValidId (s : String) : Bool :=
  s.length == 24 && s.toList.all isHexDigit

/-- Case-insensitive single-character match for the modelled `$regex`
fragment: `.` matches anything, a literal matches up to ASCII case. -/
def charMatch (p c : Char) : Bool :=
  p == '.' || p.toLower == c.toLower

/-- Anchored regex match of the pattern against a prefix of the text
(literal characters and `.` only, case-insensitive). -/
def matchHere : List Char → List Char → Bool
  | [], _ => true
  | _ :: _, [] => false
  | p :: ps, c :: cs => charMatch p c && matchHere ps cs

/-- Unanchored regex search, as MongoDB `$regex` is unanchored: the pattern
may match starting at any position of the text. -/
def regexFind (ps : List Char) : List Char → Bool
  | [] => matchHere ps []
  | c :: cs => matchHere ps (c :: cs) || regexFind ps cs

/-- `\x7btitle: \x7b$regex: s, $options: 'i'\x7d\x7d` on a string field,
for the literal-and-dot fragment of patterns. -/
def regexFindCI (pattern text : String) : Bool :=
  regexFind pattern.toList text.toList

/-- Anchored case-insensitive literal match (no wildcard). -/
def litMatchHere : List Char → List Char → Bool
  | [], _ => true
  | _ :: _, [] => false
  | p :: ps, c :: cs => (p.toLower == c.toLower) && litMatchHere ps cs

/-- Case-insensitive literal substring search. -/
def litFind (ps : List Char) : List Char → Bool
  | [] => litMatchHere ps []
  | c :: cs => litMatchHere ps (c :: cs) || litFind ps cs

/-- The spec-side notion for the search filter: `needle` occurs in `hay`
as a case-insensitive substring. -/
def containsCI (needle hay : String) : Bool :=
  litFind needle.toList hay.toList

/-- The characters that carry special meaning in a regular expression; a
search string avoiding all of them is matched purely literally. -/
def metaChars : List Char := (".^$*+?()[]|\\" ++ "\x7b\x7d").toList

/-- The query predicate built by `getAllTasks`: `isCompleted` is added when
the key is present (`!== undefined`), `priority` and `search` when truthy
(non-empty string); the search clause is `$or` of case-insensitive regex
matches on `title` and `description` (a record without `description` never
matches that clause). -/
def matchesFilters (f : TaskFilters) (t : Task) : Bool :=
  (match f.isCompleted with
   | none => true
   | some b => t.isCompleted == b) &&
  (match f.priority with
   | none => true
   | some p => p.isEmpty || t.priority == p) &&
  (match f.search with
   | none => true
   | some s => s.isEmpty ||
       (regexFindCI s t.title ||
        (match t.description with
         | none => false
         | some d => regexFindCI s d)))

/-- Ordering used by `.sort(\x7bcreatedAt: -1\x7d)`: newest-created first. -/
def byCreatedDesc (a b : Task) : Prop := b.createdAt ≤ a.createdAt

instance : DecidableRel byCreatedDesc :=
  fun a b => inferInstanceAs (Decidable (b.createdAt ≤ a.createdAt))

instance : IsTotal Task byCreatedDesc :=
  ⟨fun a b => le_total b.createdAt a.createdAt⟩

instance : IsTrans Task byCreatedDesc :=
  ⟨fun _ _ _ h1 h2 => le_trans h2 h1⟩

/-- `getAllTasks(filters)`: `Task.find(query).sort(\x7bcreatedAt: -1\x7d)`. -/
def getAllTasks (f : TaskFilters) (σ : List Task) : List Task :=
  List.insertionSort byCreatedDesc (σ.filter (matchesFilters f))

/-- `getTaskById(id)`: format gate, then `findById`. -/
def getTaskById (σ : List Task) (id : String) : Except ServiceError (Option Task) :=
  if !(isValidId id) then .error .invalidIdFormat
  else .ok (σ.find? (fun t => t.id == id))

/-- The service guard `taskdata.dueDate && new Date(taskdata.dueDate) <= new Date()`:
fires only when the value is truthy AND parses to a time ≤ now (comparisons
against Invalid Date are false). -/
def dueGuard (d : Option DueValue) (now : Int) : Bool :=
  match d with
  | none => false
  | some v => v.truthy &&
      (match v.parsed with
       | none => false
       | some t => decide (t ≤ now))

/-- Schema validation of `title` (`taskModel.ts`): required (non-empty after
trimming) and at most 200 characters. -/
def validTitle (s : String) : Bool :=
  !((strTrim s).isEmpty) && (strTrim s).length ≤ 200

/-- Schema validation of `description`: at most 1000 characters after trim. -/
def validDescription (s : String) : Bool :=
  (strTrim s).length ≤ 1000

/-- Schema validation of `priority`: must be one of the enum values. -/
def validPriority (p : String) : Bool :=
  p == "low" || p == "medium" || p == "high"

/-- Schema validation of a `dueDate` value being written: the validator
`date > new Date()` — an Invalid Date (`none`) fails (`NaN > now` is
false), a valid time must be strictly in the future. -/
def validDueStored (parsed : Option Int) (now : Int) : Bool :=
  match parsed with
  | none => false
  | some t => decide (now < t)

/-- The `dueDate` value placed in the document by
`dueDate: input.dueDate ? new Date(input.dueDate) : undefined`:
`none` = field left unset, `some parsed` = a date written (possibly
Invalid, which the store then rejects). -/
def normalizeDue (d : Option DueValue) : Option (Option Int) :=
  match d with
  | none => none
  | some v => if v.truthy then some v.parsed else none

/-- `createTask(taskdata)`: the service due-date guard, then `new Task(...)`
with schema defaults (`isCompleted` false, `priority` "medium", trimmed
strings, both timestamps now) and schema validation, then `save`.  The
store assigns `newId`. -/
def createTask (input : CreateTaskRequest) (σ : List Task) (now : Int)
    (newId : String) : Except ServiceError (Task × List Task) :=
  if dueGuard input.dueDate now then .error .dueDateMustBeFuture
  else if !(validTitle input.title) then .error .validationFailed
  else if !(match input.description with
            | none => true
            | some d => validDescription d) then .error .validationFailed
  else if !(validPriority (input.priority.getD "medium")) then .error .validationFailed
  else if !(match normalizeDue input.dueDate with
            | none => true
            | some p => validDueStored p now) then .error .validationFailed
  else
    let t : Task :=
      { id := newId
        title := strTrim input.title
        description := input.description.map strTrim
        isCompleted := false
        priority := input.priority.getD "medium"
        dueDate := (normalizeDue input.dueDate).getD none
        tags := (input.tags.getD []).map strTrim
        createdAt := now
        updatedAt := now }
    .ok (t, σ ++ [t])

/-- Validation Mongoose runs on the update document (`runValidators: true`):
each field present in the update is re-checked against the schema; the
`dueDate` key survives into the update document only when the supplied
value was truthy (otherwise it is `undefined` and stripped). -/
def validatePatch (p : UpdateTaskRequest) (now : Int) : Bool :=
  (match p.title with
   | none => true
   | some s => validTitle s) &&
  (match p.description with
   | none => true
   | some d => validDescription d) &&
  (match p.priority with
   | none => true
   | some pr => validPriority pr) &&
  (match p.dueDate with
   | none => true
   | some v => if v.truthy then validDueStored v.parsed now else true)

/-- The effect of the update document
`\x7b...updates, dueDate: updates.dueDate ? new Date(updates.dueDate) : undefined, updatedAt: now\x7d`
on one record: fields present in the patch are `$set` (strings trimmed by
the schema setters), a falsy-or-absent `dueDate` is stripped as
`undefined` and leaves the stored value untouched, `updatedAt` is always
set to now. -/
def applyPatch (p : UpdateTaskRequest) (now : Int) (t : Task) : Task :=
  { t with
    title := match p.title with
             | some s => strTrim s
             | none => t.title
    description := match p.description with
                   | some d => some (strTrim d)
                   | none => t.description
    priority := p.priority.getD t.priority
    tags := match p.tags with
            | some ts => ts.map strTrim
            | none => t.tags
    isCompleted := p.isCompleted.getD t.isCompleted
    dueDate := match p.dueDate with
               | some v => if v.truthy then v.parsed else t.dueDate
               | none => t.dueDate
    updatedAt := now }

/-- Replace the (unique) record with the given id, as `findByIdAndUpdate`
updates a single matching document. -/
def replaceById (σ : List Task) (id : String) (f : Task → Task) : List Task :=
  match σ with
  | [] => []
  | t :: ts => if t.id == id then f t :: ts else t :: replaceById ts id f

/-- Remove the (unique) record with the given id, as `findByIdAndDelete`. -/
def removeById (σ : List Task) (id : String) : List Task :=
  match σ with
  | [] => []
  | t :: ts => if t.id == id then ts else t :: removeById ts id

/-- `updateTask(id, updates)`: format gate, service due-date guard, then
`findByIdAndUpdate(id, updateData, \x7bnew: true, runValidators: true\x7d)`:
update validators run on the update document, then the matching record (if
any) is patched and returned. -/
def updateTask (σ : List Task) (id : String) (p : UpdateTaskRequest)
    (now : Int) : Except ServiceError (Option Task × List Task) :=
  if !(isValidId id) then .error .invalidIdFormat
  else if dueGuard p.dueDate now then .error .dueDateMustBeFuture
  else if !(validatePatch p now) then .error .validationFailed
  else
    match σ.find? (fun t => t.id == id) with
    | none => .ok (none, σ)
    | some t => .ok (some (applyPatch p now t), replaceById σ id (applyPatch p now))

/-- `deleteTask(id)`: format gate, then `findByIdAndDelete`; returns whether
a record existed. -/
def deleteTask (σ : List Task) (id : String) : Except ServiceError (Bool × List Task) :=
  if !(isValidId id) then .error .invalidIdFormat
  else .ok (σ.any (fun t => t.id == id), removeById σ id)

/-- The overdue predicate of `getTaskStats`:
`\x7bdueDate: \x7b$lt: now, $exists: true\x7d, isCompleted: false\x7d`. -/
def isOverdue (now : Int) (t : Task) : Bool :=
  (match t.dueDate with
   | none => false
   | some d => decide (d < now)) && !t.isCompleted

/-- `getTaskStats()`: four independent counts against the store. -/
def getTaskStats (σ : List Task) (now : Int) : TaskStats :=
  { total := σ.length
    completed := (σ.filter (fun t => t.isCompleted)).length
    pending := (σ.filter (fun t => !t.isCompleted)).length
    overdue := (σ.filter (isOverdue now)).length }

end TrackRec

namespace TrackRec

/- Helper lemmas shared by several results. -/

theorem length_filter_partition {α : Type} (p : α → Bool) (l : List α) :
    (l.filter p).length + (l.filter (fun a => !p a)).length = l.length := by
  induction l with
  | nil => rfl
  | cons a l ih =>
    cases h : p a <;> simp [List.filter_cons, h] <;> omega

theorem length_filter_mono {α : Type} (p q : α → Bool) (l : List α)
    (h : ∀ a, p a = true → q a = true) :
    (l.filter p).length ≤ (l.filter q).length := by
  induction l with
  | nil => exact Nat.le_refl 0
  | cons a l ih =>
    cases hp : p a
    · cases hq : q a <;> simp [List.filter_cons, hp, hq] <;> omega
    · have hq := h a hp
      simp [List.filter_cons, hp, hq]
      omega

theorem mem_getAllTasks_iff (f : TaskFilters) (σ : List Task) (t : Task) :
    t ∈ getAllTasks f σ ↔ t ∈ σ ∧ matchesFilters f t = true := by
  unfold getAllTasks
  rw [(List.perm_insertionSort byCreatedDesc (σ.filter (matchesFilters f))).mem_iff]
  exact List.mem_filter

/-- C2: `getTaskStats` returns `total` = count of all tasks, `completed` =
count of tasks with `isCompleted` true, `pending` = count of tasks with
`isCompleted` false, `overdue` = count of tasks with `isCompleted` false
and an existing `dueDate` strictly before now; and always
`completed + pending = total` and `overdue ≤ pending`. -/
theorem getTaskStats_counts_and_invariants (σ : List Task) (now : Int) :
    (getTaskStats σ now).total = σ.length ∧
    (getTaskStats σ now).completed = (σ.filter (fun t => t.isCompleted == true)).length ∧
    (getTaskStats σ now).pending = (σ.filter (fun t => t.isCompleted == false)).length ∧
    (getTaskStats σ now).overdue =
      (σ.filter (fun t =>
        t.isCompleted == false && t.dueDate.any (fun d => decide (d < now)))).length ∧
    (getTaskStats σ now).completed + (getTaskStats σ now).pending = (getTaskStats σ now).total ∧
    (getTaskStats σ now).overdue ≤ (getTaskStats σ now).pending := by
  refine ⟨rfl, ?_, ?_, ?_, ?_, ?_⟩
  · show (σ.filter (fun t => t.isCompleted)).length = _
    apply congrArg
    apply List.filter_congr
    intro t _
    cases t.isCompleted <;> rfl
  · show (σ.filter (fun t => !t.isCompleted)).length = _
    apply congrArg
    apply List.filter_congr
    intro t _
    cases t.isCompleted <;> rfl
  · show (σ.filter (isOverdue now)).length = _
    apply congrArg
    apply List.filter_congr
    intro t _
    unfold isOverdue
    cases t.isCompleted <;> cases h : t.dueDate <;> simp [h, Option.any]
  · show (σ.filter (fun t => t.isCompleted)).length +
        (σ.filter (fun t => !t.isCompleted)).length = σ.length
    exact length_filter_partition (fun t => t.isCompleted) σ
  · apply length_filter_mono
    intro t h
    unfold isOverdue at h
    cases hc : t.isCompleted <;> simp [hc] at h ⊢

/-- C4: the completion filter constrains the result exactly when the key is
present: `listTasks` with `isCompleted := false` returns only incomplete
tasks, with `isCompleted := true` only completed ones, and with no filters
every task. -/
theorem getAllTasks_isCompleted_filter (σ : List Task) :
    (∀ t, t ∈ getAllTasks { isCompleted := some false } σ → t.isCompleted = false) ∧
    (∀ t, t ∈ getAllTasks { isCompleted := some true } σ → t.isCompleted = true) ∧
    (∀ t, t ∈ getAllTasks {} σ ↔ t ∈ σ) := by
  refine ⟨?_, ?_, ?_⟩
  · intro t ht
    have h := ((mem_getAllTasks_iff _ σ t).1 ht).2
    simp [matchesFilters] at h
    exact h
  · intro t ht
    have h := ((mem_getAllTasks_iff _ σ t).1 ht).2
    simp [matchesFilters] at h
    exact h
  · intro t
    rw [mem_getAllTasks_iff]
    simp [matchesFilters]

/-- C9: for every store state and filter, the sequence returned by
`getAllTasks` is sorted by `createdAt` descending: at positions `i < j`,
the task at `i` has `createdAt` at least that of the task at `j`. -/
theorem getAllTasks_sorted_createdAt_desc (f : TaskFilters) (σ : List Task)
    (i j : Fin (getAllTasks f σ).length) (hij : i < j) :
    ((getAllTasks f σ).get j).createdAt ≤ ((getAllTasks f σ).get i).createdAt :=
  (List.sorted_insertionSort byCreatedDesc (σ.filter (matchesFilters f))).rel_get_of_lt hij

/- Concrete records used to witness the hypothesis-bearing theorems. -/

def wTaskA : Task :=
  { id := "0123456789abcdef01234567"
    title := "abc"
    description := none
    isCompleted := false
    priority := "medium"
    dueDate := none
    tags := []
    createdAt := 1
    updatedAt := 1 }

def wTaskB : Task :=
  { id := "89abcdef0123456789abcdef"
    title := "xyz"
    description := none
    isCompleted := true
    priority := "high"
    dueDate := some 10
    tags := []
    createdAt := 2
    updatedAt := 2 }

theorem getAllTasks_isCompleted_filter_witness :
    wTaskA.isCompleted = false ∧ (wTaskA ∈ getAllTasks {} [wTaskA, wTaskB] ↔ wTaskA ∈ [wTaskA, wTaskB]) :=
  ⟨(getAllTasks_isCompleted_filter [wTaskA, wTaskB]).1 wTaskA (by decide),
   (getAllTasks_isCompleted_filter [wTaskA, wTaskB]).2.2 wTaskA⟩

theorem getAllTasks_sorted_createdAt_desc_witness :
    ((getAllTasks {} [wTaskA, wTaskB]).get ⟨1, by decide⟩).createdAt ≤
      ((getAllTasks {} [wTaskA, wTaskB]).get ⟨0, by decide⟩).createdAt :=
  getAllTasks_sorted_createdAt_desc {} [wTaskA, wTaskB] ⟨0, by decide⟩ ⟨1, by decide⟩ (by decide)

end TrackRec

namespace TrackRec

theorem updateTask_ok_some_inv (σ : List Task) (id : String) (p : UpdateTaskRequest)
    (now : Int) (t' : Task) (σ' : List Task)
    (h : updateTask σ id p now = .ok (some t', σ')) :
    isValidId id = true ∧ dueGuard p.dueDate now = false ∧ validatePatch p now = true ∧
    ∃ t, σ.find? (fun u => u.id == id) = some t ∧ t' = applyPatch p now t ∧
      σ' = replaceById σ id (applyPatch p now) := by
  unfold updateTask at h
  cases hv : isValidId id with
  | false => rw [hv] at h; simp at h
  | true =>
    rw [hv] at h
    simp only [Bool.not_true, Bool.false_eq_true, if_false] at h
    cases hg : dueGuard p.dueDate now with
    | true => rw [hg] at h; simp at h
    | false =>
      rw [hg] at h
      simp only [Bool.false_eq_true, if_false] at h
      cases hval : validatePatch p now with
      | false => rw [hval] at h; simp at h
      | true =>
        rw [hval] at h
        simp only [Bool.not_true, Bool.false_eq_true, if_false] at h
        cases hf : σ.find? (fun u => u.id == id) with
        | none => rw [hf] at h; simp at h
        | some t =>
          rw [hf] at h
          simp only [Except.ok.injEq, Prod.mk.injEq, Option.some.injEq] at h
          exact ⟨rfl, rfl, rfl, t, rfl, h.1.symm, h.2.symm⟩

theorem updateTask_ok_of (σ : List Task) (id : String) (p : UpdateTaskRequest)
    (now : Int) (t : Task)
    (hv : isValidId id = true) (hg : dueGuard p.dueDate now = false)
    (hval : validatePatch p now = true)
    (hf : σ.find? (fun u => u.id == id) = some t) :
    updateTask σ id p now =
      .ok (some (applyPatch p now t), replaceById σ id (applyPatch p now)) := by
  unfold updateTask
  rw [hv, hg, hval, hf]
  simp

/-- C1: updateTask applies exactly the fields present in the patch and
leaves absent fields unchanged, including falsy values: an explicit
`isCompleted := false` is applied while an absent key leaves completion
untouched; in particular patching `isCompleted := false` on a task already
incomplete changes no field other than `updatedAt`. -/
theorem updateTask_applies_present_fields (σ : List Task) (id : String)
    (p : UpdateTaskRequest) (now : Int) (t t' : Task) (σ' : List Task)
    (hok : updateTask σ id p now = .ok (some t', σ'))
    (hf : σ.find? (fun u => u.id == id) = some t) :
    ((p.isCompleted = none → t'.isCompleted = t.isCompleted) ∧
     (∀ b, p.isCompleted = some b → t'.isCompleted = b) ∧
     (p.title = none → t'.title = t.title) ∧
     (p.description = none → t'.description = t.description) ∧
     (p.priority = none → t'.priority = t.priority) ∧
     (p.tags = none → t'.tags = t.tags) ∧
     (p.dueDate = none → t'.dueDate = t.dueDate) ∧
     t'.id = t.id ∧ t'.createdAt = t.createdAt ∧ t'.updatedAt = now) ∧
    (p = { isCompleted := some false } → t.isCompleted = false →
      t' = { t with updatedAt := now }) := by
  obtain ⟨hv, hg, hval, u, hfu, ht', hσ'⟩ := updateTask_ok_some_inv σ id p now t' σ' hok
  rw [hf] at hfu
  cases hfu
  subst ht'
  constructor
  · refine ⟨?_, ?_, ?_, ?_, ?_, ?_, ?_, rfl, rfl, rfl⟩
    · intro h; simp [applyPatch, h]
    · intro b h; simp [applyPatch, h]
    · intro h; simp [applyPatch, h]
    · intro h; simp [applyPatch, h]
    · intro h; simp [applyPatch, h]
    · intro h; simp [applyPatch, h]
    · intro h; simp [applyPatch, h]
  · intro hp hc
    subst hp
    obtain ⟨tid, ttitle, tdesc, tcomp, tprio, tdue, ttags, tcr, tup⟩ := t
    simp at hc
    subst hc
    simp [applyPatch]

/-- C8: an empty patch succeeds, sets `updatedAt` to the current time
(strictly advancing it), and changes no other field. -/
theorem updateTask_empty_patch_bumps_updatedAt (σ : List Task) (id : String)
    (now : Int) (t : Task)
    (hv : isValidId id = true)
    (hf : σ.find? (fun u => u.id == id) = some t)
    (hlt : t.updatedAt < now) :
    updateTask σ id {} now =
      .ok (some { t with updatedAt := now }, replaceById σ id (applyPatch {} now)) ∧
    (∀ u : Task, applyPatch {} now u = { u with updatedAt := now }) ∧
    t.updatedAt < ({ t with updatedAt := now } : Task).updatedAt := by
  have happ : ∀ u : Task, applyPatch ({} : UpdateTaskRequest) now u = { u with updatedAt := now } := by
    intro u
    obtain ⟨uid, utitle, udesc, ucomp, uprio, udue, utags, ucr, uup⟩ := u
    simp [applyPatch]
  refine ⟨?_, happ, hlt⟩
  rw [updateTask_ok_of σ id {} now t hv rfl rfl hf, happ t]

/-- C10: a due date, once set, is never cleared by updateTask: a patch whose
dueDate key is absent or holds a falsy value leaves the stored value
unchanged, and any successful update leaves a present dueDate that is
either the old one or a strictly future one. -/
theorem updateTask_never_clears_dueDate (σ : List Task) (id : String)
    (p : UpdateTaskRequest) (now : Int) (t t' : Task) (σ' : List Task) (d : Int)
    (hok : updateTask σ id p now = .ok (some t', σ'))
    (hf : σ.find? (fun u => u.id == id) = some t)
    (hd : t.dueDate = some d) :
    ((p.dueDate = none ∨ ∃ v, p.dueDate = some v ∧ v.truthy = false) →
       t'.dueDate = some d) ∧
    ∃ d', t'.dueDate = some d' ∧ (d' = d ∨ now < d') := by
  obtain ⟨hv, hg, hval, u, hfu, ht', hσ'⟩ := updateTask_ok_some_inv σ id p now t' σ' hok
  rw [hf] at hfu
  cases hfu
  subst ht'
  constructor
  · rintro (hnone | ⟨v, hpd, hvt⟩)
    · simp [applyPatch, hnone, hd]
    · simp [applyPatch, hpd, hvt, hd]
  · cases hpd : p.dueDate with
    | none => exact ⟨d, by simp [applyPatch, hpd, hd], Or.inl rfl⟩
    | some v =>
      cases hvt : v.truthy with
      | false => exact ⟨d, by simp [applyPatch, hpd, hvt, hd], Or.inl rfl⟩
      | true =>
        have hstored : validDueStored v.parsed now = true := by
          unfold validatePatch at hval
          simp only [Bool.and_eq_true] at hval
          have h3 := hval.2
          simp [hpd, hvt] at h3
          exact h3
        cases hp : v.parsed with
        | none => rw [hp] at hstored; simp [validDueStored] at hstored
        | some tm =>
          rw [hp] at hstored
          simp [validDueStored] at hstored
          exact ⟨tm, by simp [applyPatch, hpd, hvt, hp], Or.inr hstored⟩

theorem removeById_of_absent (σ : List Task) (id : String)
    (h : ∀ t ∈ σ, (t.id == id) = false) : removeById σ id = σ := by
  induction σ with
  | nil => rfl
  | cons a l ih =>
    unfold removeById
    rw [h a (by simp)]
    simp only [Bool.false_eq_true, if_false, List.cons.injEq, true_and]
    exact ih (fun t ht => h t (by simp [ht]))

/-- C6: an id failing the 24-hex format check makes getTaskById, updateTask
and deleteTask fail with the invalid-id error before any store access,
while a well-formed id matching no record yields absence (`none` / `false`)
with the store unchanged. -/
theorem id_format_gate_distinguishes_absence (σ : List Task) (id : String)
    (p : UpdateTaskRequest) (now : Int) :
    (isValidId id = false →
      getTaskById σ id = .error .invalidIdFormat ∧
      updateTask σ id p now = .error .invalidIdFormat ∧
      deleteTask σ id = .error .invalidIdFormat) ∧
    (isValidId id = true → (∀ t ∈ σ, (t.id == id) = false) →
      getTaskById σ id = .ok none ∧
      deleteTask σ id = .ok (false, σ) ∧
      (dueGuard p.dueDate now = false → validatePatch p now = true →
        updateTask σ id p now = .ok (none, σ))) := by
  constructor
  · intro hv
    exact ⟨by simp [getTaskById, hv], by simp [updateTask, hv], by simp [deleteTask, hv]⟩
  · intro hv habs
    have hfind : σ.find? (fun t => t.id == id) = none := by
      rw [List.find?_eq_none]
      intro t ht
      simp [habs t ht]
    have hany : σ.any (fun t => t.id == id) = false := by
      rw [List.any_eq_false]
      intro t ht
      simp [habs t ht]
    refine ⟨by simp [getTaskById, hv, hfind], ?_, ?_⟩
    · simp [deleteTask, hv, hany, removeById_of_absent σ id habs]
    · intro hg hval
      simp [updateTask, hv, hg, hval, hfind]

theorem updateTask_applies_present_fields_witness :
    ({ wTaskA with updatedAt := 5 } : Task) = { wTaskA with updatedAt := 5 } :=
  (updateTask_applies_present_fields [wTaskA] "0123456789abcdef01234567"
      { isCompleted := some false } 5 wTaskA ({ wTaskA with updatedAt := 5 })
      (replaceById [wTaskA] "0123456789abcdef01234567"
        (applyPatch { isCompleted := some false } 5))
      rfl rfl).2 rfl rfl

theorem updateTask_empty_patch_bumps_updatedAt_witness :
    updateTask [wTaskA] "0123456789abcdef01234567" {} 5 =
      .ok (some { wTaskA with updatedAt := 5 },
        replaceById [wTaskA] "0123456789abcdef01234567" (applyPatch {} 5)) :=
  (updateTask_empty_patch_bumps_updatedAt [wTaskA] "0123456789abcdef01234567" 5 wTaskA
      rfl rfl (by decide)).1

theorem updateTask_never_clears_dueDate_witness :
    ({ wTaskB with updatedAt := 5 } : Task).dueDate = some 10 :=
  (updateTask_never_clears_dueDate [wTaskB] "89abcdef0123456789abcdef"
      { dueDate := some DueValue.jsNull } 5 wTaskB ({ wTaskB with updatedAt := 5 })
      (replaceById [wTaskB] "89abcdef0123456789abcdef"
        (applyPatch { dueDate := some DueValue.jsNull } 5))
      10 rfl rfl rfl).1 (Or.inr ⟨DueValue.jsNull, rfl, rfl⟩)

theorem id_format_gate_distinguishes_absence_witness :
    getTaskById [] "stats" = .error .invalidIdFormat ∧
    getTaskById [] "0123456789abcdef01234567" = .ok none :=
  ⟨((id_format_gate_distinguishes_absence [] "stats" {} 0).1 rfl).1,
   ((id_format_gate_distinguishes_absence [] "0123456789abcdef01234567" {} 0).2 rfl
      (by intro t ht; cases ht)).1⟩

end TrackRec

namespace TrackRec

def cexCreateNull : CreateTaskRequest :=
  { title := "pay rent", dueDate := some DueValue.jsNull }

def cexCreateEmpty : CreateTaskRequest :=
  { title := "pay rent", dueDate := some DueValue.emptyString }

def cexCreatedTask : Task :=
  { id := "0123456789abcdef01234567"
    title := "pay rent"
    description := none
    isCompleted := false
    priority := "medium"
    dueDate := none
    tags := []
    createdAt := 5
    updatedAt := 5 }

/-- C3 counterexample: a dueDate of JSON null / the number 0 is present and
parses to epoch 0 ≤ now = 5, so the claim demands a due-date error and no
persisted record; instead `createTask` succeeds, silently drops the value,
and persists a new record. -/
theorem createTask_accepts_falsy_past_dueDate :
    DueValue.jsNull.parsed = some 0 ∧ ((0 : Int) ≤ 5) ∧
    createTask cexCreateNull [] 5 "0123456789abcdef01234567" =
      .ok (cexCreatedTask, [cexCreatedTask]) :=
  ⟨rfl, by decide, by decide⟩

/-- C3 (amended): for every create or update input whose dueDate is present,
truthy (a genuine date value), and parses to a time ≤ now, the operation
fails with the due-date error and no store state is produced; a falsy
dueDate value (null, 0, the empty string) is instead treated as absent. -/
theorem truthy_past_dueDate_rejected (now tm : Int) (v : DueValue)
    (hvt : v.truthy = true) (hp : v.parsed = some tm) (hle : tm ≤ now) :
    (∀ (input : CreateTaskRequest) (σ : List Task) (newId : String),
      input.dueDate = some v →
      createTask input σ now newId = .error .dueDateMustBeFuture) ∧
    (∀ (σ : List Task) (id : String) (p : UpdateTaskRequest),
      isValidId id = true → p.dueDate = some v →
      updateTask σ id p now = .error .dueDateMustBeFuture) := by
  have hguard : dueGuard (some v) now = true := by
    simp [dueGuard, hvt, hp, hle]
  constructor
  · intro input σ newId hdue
    simp [createTask, hdue, hguard]
  · intro σ id p hv hdue
    simp [updateTask, hv, hdue, hguard]

theorem truthy_past_dueDate_rejected_witness :
    createTask { title := "pay rent", dueDate := some (DueValue.ofTime 3) } [] 5
      "0123456789abcdef01234567" = .error .dueDateMustBeFuture :=
  (truthy_past_dueDate_rejected 5 3 (DueValue.ofTime 3) rfl rfl (by decide)).1
    { title := "pay rent", dueDate := some (DueValue.ofTime 3) } []
    "0123456789abcdef01234567" rfl

/-- C7 counterexample: a present but empty-string dueDate (an invalid,
unparseable value) does not make the operation fail: `createTask` succeeds,
silently drops the supplied dueDate, and persists a record without one. -/
theorem createTask_drops_empty_string_dueDate :
    createTask cexCreateEmpty [] 5 "0123456789abcdef01234567" =
      .ok (cexCreatedTask, [cexCreatedTask]) ∧
    cexCreatedTask.dueDate = none :=
  ⟨by decide, rfl⟩

/-- C7 (amended): a present, truthy, unparseable dueDate (for instance a
non-empty string that does not parse) makes createTask and updateTask fail
with a validation error; but a falsy invalid value such as the empty string
is silently treated as absent rather than rejected. -/
theorem truthy_unparseable_dueDate_rejected (now : Int) (v : DueValue)
    (hvt : v.truthy = true) (hp : v.parsed = none) :
    (∀ (input : CreateTaskRequest) (σ : List Task) (newId : String),
      input.dueDate = some v →
      createTask input σ now newId = .error .validationFailed) ∧
    (∀ (σ : List Task) (id : String) (p : UpdateTaskRequest),
      isValidId id = true → p.dueDate = some v →
      updateTask σ id p now = .error .validationFailed) := by
  have hg : dueGuard (some v) now = false := by
    simp [dueGuard, hp]
  constructor
  · intro input σ newId hdue
    simp [createTask, hdue, hg, normalizeDue, hvt, hp, validDueStored, ite_self]
  · intro σ id p hv hdue
    have hval : validatePatch p now = false := by
      unfold validatePatch
      rw [hdue]
      simp [hvt, hp, validDueStored]
    simp [updateTask, hv, hdue, hg, hval]

theorem truthy_unparseable_dueDate_rejected_witness :
    createTask { title := "pay rent", dueDate := some DueValue.unparseableString } [] 5
      "0123456789abcdef01234567" = .error .validationFailed :=
  (truthy_unparseable_dueDate_rejected 5 DueValue.unparseableString rfl rfl).1
    { title := "pay rent", dueDate := some DueValue.unparseableString } []
    "0123456789abcdef01234567" rfl

end TrackRec

namespace TrackRec

theorem litFind_nil_pattern (l : List Char) : litFind [] l = true := by
  cases l <;> rfl

theorem matchHere_eq_lit (ps : List Char) (h : ('.' : Char) ∉ ps) :
    ∀ cs : List Char, matchHere ps cs = litMatchHere ps cs := by
  induction ps with
  | nil => intro cs; cases cs <;> rfl
  | cons p ps ih =>
    intro cs
    simp only [List.mem_cons, not_or] at h
    obtain ⟨h1, h2⟩ := h
    cases cs with
    | nil => rfl
    | cons c cs =>
      have hp : (p == '.') = false := beq_eq_false_iff_ne.mpr (fun he => h1 he.symm)
      unfold matchHere litMatchHere charMatch
      rw [hp]
      simp only [Bool.false_or]
      rw [ih h2 cs]

theorem regexFind_eq_lit (ps : List Char) (h : ('.' : Char) ∉ ps) :
    ∀ cs : List Char, regexFind ps cs = litFind ps cs := by
  intro cs
  induction cs with
  | nil =>
    unfold regexFind litFind
    exact matchHere_eq_lit ps h []
  | cons c cs ih =>
    unfold regexFind litFind
    rw [matchHere_eq_lit ps h (c :: cs), ih]

/-- C5 counterexample: the search string is handed to the store as a
regular expression, not as a literal substring: searching for "a.c"
returns the task titled "abc", whose title and description both lack
"a.c" as a (case-insensitive) substring. -/
theorem search_matches_regex_not_substring :
    wTaskA ∈ getAllTasks { search := some "a.c" } [wTaskA] ∧
    containsCI "a.c" wTaskA.title = false ∧
    wTaskA.description = none :=
  ⟨by decide, by decide, rfl⟩

/-- C5 (amended): for every search string free of regex metacharacters,
`getAllTasks` with that search returns exactly the tasks whose title or
description contains the string as a case-insensitive substring; for
strings containing metacharacters the store performs regex matching
instead. -/
theorem getAllTasks_search_literal_exact (σ : List Task) (s : String)
    (hs : ∀ c ∈ s.toList, c ∉ metaChars) (t : Task) :
    t ∈ getAllTasks { search := some s } σ ↔
      t ∈ σ ∧ (containsCI s t.title = true ∨
               ∃ d, t.description = some d ∧ containsCI s d = true) := by
  have hdot : ('.' : Char) ∉ s.toList := fun hmem => hs '.' hmem (by decide)
  have hre : ∀ x : String, regexFindCI s x = containsCI s x :=
    fun x => regexFind_eq_lit s.toList hdot x.toList
  rw [mem_getAllTasks_iff]
  apply and_congr_right
  intro _
  cases hse : s.isEmpty with
  | true =>
    have hnil : s = "" := (String.isEmpty_iff s).mp hse
    subst hnil
    constructor
    · intro _
      refine Or.inl ?_
      show litFind [] t.title.toList = true
      exact litFind_nil_pattern t.title.toList
    · intro _
      simp [matchesFilters, hse]
  | false =>
    cases hd : t.description with
    | none => simp [matchesFilters, hse, hd, hre]
    | some d => simp [matchesFilters, hse, hd, hre]

theorem getAllTasks_search_literal_exact_witness :
    wTaskA ∈ getAllTasks { search := some "ab" } [wTaskA] ↔
      wTaskA ∈ [wTaskA] ∧ (containsCI "ab" wTaskA.title = true ∨
        ∃ d, wTaskA.description = some d ∧ containsCI "ab" d = true) :=
  getAllTasks_search_literal_exact [wTaskA] "ab" (by decide) wTaskA

end TrackRec
